import Mathlib

/-!
Verification of the GridZero adaptive-difficulty model script
(src/ezkl/model.py) against its natural-language specification.

The script is embedded shallowly:
  * the synthetic data generator (`generate_training_data`) over ℚ, with the
    numpy pseudo-random generator modelled as a deterministic stream indexed
    by (seed, counter) — reseeding resets the state, exactly as
    `np.random.seed` does;
  * the neural network (`DifficultyModel`) over ℝ, with the exact
    sigmoid 1 / (1 + exp (-z));
  * the training loop (`train_model`) as a fold over `List.range 500`
    threading an Adam optimizer state, with the backpropagation gradient
    oracle abstracted as a function argument;
  * the ONNX export call and the sample-input file as the concrete
    configuration data the source passes to `torch.onnx.export` and
    `json.dump`.
-/

namespace GridZero

/-! ## Pseudo-random generator model

numpy's global RNG is a deterministic stream: after `np.random.seed s`, the
k-th scalar drawn is a pure function of (s, k).  We model the state as the
pair (seed, counter) and take the underlying stream `ℕ → ℕ → ℚ`
(seed → counter → raw draw in [0,1]) as a parameter. -/

structure RNG where
  seed : ℕ
  counter : ℕ
  deriving DecidableEq, Repr

/-- Model of `np.random.seed s`: discards the previous state entirely. -/
def npSeed (s : ℕ) (_g : RNG) : RNG := ⟨s, 0⟩

/-- Draw one raw stream value in [0,1] and advance the counter. -/
def draw (stream : ℕ → ℕ → ℚ) (g : RNG) : ℚ × RNG :=
  (stream g.seed g.counter, ⟨g.seed, g.counter + 1⟩)

/-- Model of a single `np.random.uniform lo hi` scalar draw. -/
def uniform (stream : ℕ → ℕ → ℚ) (lo hi : ℚ) (g : RNG) : ℚ × RNG :=
  let u := draw stream g
  (lo + (hi - lo) * u.1, u.2)

/-- Model of `np.random.uniform lo hi n`: a vector of n independent draws. -/
def uniformArray (stream : ℕ → ℕ → ℚ) (lo hi : ℚ) : ℕ → RNG → List ℚ × RNG
  | 0, g => ([], g)
  | n + 1, g =>
    let x := uniform stream lo hi g
    let xs := uniformArray stream lo hi n x.2
    (x.1 :: xs.1, xs.2)

/-- Model of a `np.random.normal mu sigma` scalar draw.  The Gaussian
transform of the raw stream value is abstracted as an affine map; every
claim below treats the noise value as opaque, so only determinism in
(seed, counter) matters. -/
def normal (stream : ℕ → ℕ → ℚ) (mu sigma : ℚ) (g : RNG) : ℚ × RNG :=
  let u := draw stream g
  (mu + sigma * u.1, u.2)

/-- Model of `np.clip x lo hi`. -/
def npClip (x lo hi : ℚ) : ℚ := max lo (min x hi)

/-! ## Synthetic data generator (generate_training_data) -/

/-- The body of the per-sample loop of `generate_training_data`
(src/ezkl/model.py lines 74-100): baseline 128, player-count bracket,
rare-rate bracket, saturation bonus, time decay, additive noise, clip to
[1,255], divide by 255. -/
def labelOf (players rare mined time noise : ℚ) : ℚ :=
  let base : ℚ := 128
  let base := if players < 50 then base + 40
    else if players > 500 then base - 20 else base
  let base := if rare > 0.6 then base - 50
    else if rare < 0.2 then base + 50 else base
  let saturation := mined / 1024
  let base := if saturation > 0.7 then base + 30 else base
  let base := base - time * 20
  let base := base + noise
  npClip base 1 255 / 255

/-- The per-sample loop: walks the five feature vectors in lockstep,
drawing one normal noise value per sample, exactly as the Python `for i in
range(n_samples)` loop does. -/
def targetLoop (stream : ℕ → ℕ → ℚ) :
    List ℚ → List ℚ → List ℚ → List ℚ → RNG → List ℚ × RNG
  | p :: ps, r :: rs, m :: ms, t :: ts, g =>
    let nz := normal stream 0 10 g
    let rest := targetLoop stream ps rs ms ts nz.2
    (labelOf p r m t nz.1 :: rest.1, rest.2)
  | _, _, _, _, g => ([], g)

/-- numpy dtypes that appear in the source. -/
inductive DType where
  | float32
  | float64
  deriving DecidableEq, Repr

/-- A 2-d numpy array: row-major data plus its dtype. -/
structure NDMatrix where
  data : List (List ℚ)
  dtype : DType
  deriving DecidableEq, Repr

/-- Model of `np.column_stack` on five 1-d arrays: row i collects the i-th
entry of each column. -/
def columnStack5 : List ℚ → List ℚ → List ℚ → List ℚ → List ℚ → List (List ℚ)
  | a :: as, b :: bs, c :: cs, d :: ds, e :: es =>
    [a, b, c, d, e] :: columnStack5 as bs cs ds es
  | _, _, _, _, _ => []

/-- Embedding of `generate_training_data` (src/ezkl/model.py lines 53-113):
reseed to 42, draw the five raw feature arrays, run the target loop, stack
the normalized columns into X and reshape the labels into y, both cast to
float32. -/
def generate_training_data (stream : ℕ → ℕ → ℚ) (n_samples : ℕ) (g0 : RNG) :
    NDMatrix × NDMatrix :=
  let g1 := npSeed 42 g0
  let tp := uniformArray stream 1 1000 n_samples g1
  let sc := uniformArray stream 0 10000 n_samples tp.2
  let rr := uniformArray stream 0 1 n_samples sc.2
  let tm := uniformArray stream 0 (32 * 32) n_samples rr.2
  let tf := uniformArray stream 0 1 n_samples tm.2
  let tgt := targetLoop stream tp.1 rr.1 tm.1 tf.1 tf.2
  let X : NDMatrix :=
    ⟨columnStack5 (tp.1.map (· / 1000)) (sc.1.map (· / 10000)) rr.1
      (tm.1.map (· / 1024)) tf.1, .float32⟩
  let y : NDMatrix := ⟨tgt.1.map (fun v => [v]), .float32⟩
  (X, y)

/-! ## Spec-side restatement of the label formula (for claim C1) -/

/-- The pre-clip, pre-noise part of the label formula, written as the spec
words it: a baseline of 128 plus one additive adjustment per rule. -/
def preClipBase (players rare mined time : ℚ) : ℚ :=
  128
    + (if players < 50 then 40 else if players > 500 then -20 else 0)
    + (if rare > 0.6 then -50 else if rare < 0.2 then 50 else 0)
    + (if mined / 1024 > 0.7 then 30 else 0)
    - time * 20

/-- The full label exactly as the spec describes it: adjusted baseline plus
noise, clipped to [1,255], divided by 255. -/
def labelSpecFormula (players rare mined time noise : ℚ) : ℚ :=
  npClip (preClipBase players rare mined time + noise) 1 255 / 255

/-- The source loop body computes exactly clip(adjusted base + noise)/255. -/
lemma labelOf_eq (players rare mined time noise : ℚ) :
    labelOf players rare mined time noise
      = npClip (preClipBase players rare mined time + noise) 1 255 / 255 := by
  simp only [labelOf, preClipBase]
  split_ifs <;> ring_nf

/-! ## Basic lemmas about the generator -/

lemma npClip_le (x lo hi : ℚ) (h : lo ≤ hi) : lo ≤ npClip x lo hi ∧ npClip x lo hi ≤ hi :=
  ⟨le_max_left _ _, max_le h (min_le_right x hi)⟩

lemma uniformArray_length (stream : ℕ → ℕ → ℚ) (lo hi : ℚ) :
    ∀ (n : ℕ) (g : RNG), ((uniformArray stream lo hi n g).1).length = n := by
  intro n
  induction n with
  | zero => intro g; rfl
  | succ k ih => intro g; simp [uniformArray, ih]

lemma uniformArray_mem (stream : ℕ → ℕ → ℚ) (lo hi : ℚ) (hlohi : lo ≤ hi)
    (hs : ∀ s c, 0 ≤ stream s c ∧ stream s c ≤ 1) :
    ∀ (n : ℕ) (g : RNG) (x : ℚ), x ∈ (uniformArray stream lo hi n g).1 →
      lo ≤ x ∧ x ≤ hi := by
  intro n
  induction n with
  | zero => intro g x hx; simp [uniformArray] at hx
  | succ k ih =>
    intro g x hx
    simp only [uniformArray, uniform, draw, List.mem_cons] at hx
    rcases hx with h | h
    · subst h
      obtain ⟨h0, h1⟩ := hs g.seed g.counter
      constructor
      · nlinarith [sub_nonneg.mpr hlohi]
      · nlinarith [sub_nonneg.mpr hlohi]
    · exact ih _ x h

lemma targetLoop_length (stream : ℕ → ℕ → ℚ) :
    ∀ (ps rs ms ts : List ℚ) (g : RNG),
      rs.length = ps.length → ms.length = ps.length → ts.length = ps.length →
      ((targetLoop stream ps rs ms ts g).1).length = ps.length := by
  intro ps
  induction ps with
  | nil =>
    intro rs ms ts g _ _ _
    cases rs <;> cases ms <;> cases ts <;> simp [targetLoop]
  | cons p ps ih =>
    intro rs ms ts g h1 h2 h3
    cases rs with
    | nil => simp at h1
    | cons r rs =>
      cases ms with
      | nil => simp at h2
      | cons m ms =>
        cases ts with
        | nil => simp at h3
        | cons t ts =>
          simp only [targetLoop, List.length_cons]
          rw [ih rs ms ts _ (by simpa using h1) (by simpa using h2) (by simpa using h3)]

lemma columnStack5_length :
    ∀ (a b c d e : List ℚ),
      b.length = a.length → c.length = a.length → d.length = a.length →
      e.length = a.length →
      (columnStack5 a b c d e).length = a.length := by
  intro a
  induction a with
  | nil =>
    intro b c d e _ _ _ _
    cases b <;> cases c <;> cases d <;> cases e <;> simp [columnStack5]
  | cons x a ih =>
    intro b c d e h1 h2 h3 h4
    cases b with
    | nil => simp at h1
    | cons xb b =>
      cases c with
      | nil => simp at h2
      | cons xc c =>
        cases d with
        | nil => simp at h3
        | cons xd d =>
          cases e with
          | nil => simp at h4
          | cons xe e =>
            simp only [columnStack5, List.length_cons]
            rw [ih b c d e (by simpa using h1) (by simpa using h2)
              (by simpa using h3) (by simpa using h4)]

lemma columnStack5_mem :
    ∀ (a b c d e : List ℚ) (row : List ℚ), row ∈ columnStack5 a b c d e →
      ∃ x1 x2 x3 x4 x5, row = [x1, x2, x3, x4, x5]
        ∧ x1 ∈ a ∧ x2 ∈ b ∧ x3 ∈ c ∧ x4 ∈ d ∧ x5 ∈ e := by
  intro a
  induction a with
  | nil =>
    intro b c d e row hrow
    cases b <;> cases c <;> cases d <;> cases e <;> simp [columnStack5] at hrow
  | cons x a ih =>
    intro b c d e row hrow
    cases b with
    | nil => simp [columnStack5] at hrow
    | cons xb b =>
      cases c with
      | nil => simp [columnStack5] at hrow
      | cons xc c =>
        cases d with
        | nil => simp [columnStack5] at hrow
        | cons xd d =>
          cases e with
          | nil => simp [columnStack5] at hrow
          | cons xe e =>
            rcases List.mem_cons.mp hrow with h | h
            · exact ⟨x, xb, xc, xd, xe, h, by simp, by simp, by simp, by simp, by simp⟩
            · obtain ⟨x1, x2, x3, x4, x5, hr, h1, h2, h3, h4, h5⟩ := ih b c d e row h
              exact ⟨x1, x2, x3, x4, x5, hr, List.mem_cons_of_mem _ h1,
                List.mem_cons_of_mem _ h2, List.mem_cons_of_mem _ h3,
                List.mem_cons_of_mem _ h4, List.mem_cons_of_mem _ h5⟩

lemma targetLoop_mem (stream : ℕ → ℕ → ℚ) :
    ∀ (ps rs ms ts : List ℚ) (g : RNG) (x : ℚ),
      x ∈ (targetLoop stream ps rs ms ts g).1 →
      ∃ p r m t nz, x = labelOf p r m t nz := by
  intro ps
  induction ps with
  | nil =>
    intro rs ms ts g x hx
    cases rs <;> cases ms <;> cases ts <;> simp [targetLoop] at hx
  | cons p ps ih =>
    intro rs ms ts g x hx
    cases rs with
    | nil => simp [targetLoop] at hx
    | cons r rs =>
      cases ms with
      | nil => simp [targetLoop] at hx
      | cons m ms =>
        cases ts with
        | nil => simp [targetLoop] at hx
        | cons t ts =>
          rcases List.mem_cons.mp hx with h | h
          · exact ⟨p, r, m, t, _, h⟩
          · exact ih rs ms ts _ x h

/-- Every label value is clip(something)/255, hence inside [1/255, 1]. -/
lemma labelOf_bounds (players rare mined time noise : ℚ) :
    1 / 255 ≤ labelOf players rare mined time noise
      ∧ labelOf players rare mined time noise ≤ 1 := by
  obtain ⟨hlo, hhi⟩ :=
    npClip_le (preClipBase players rare mined time + noise) 1 255 (by norm_num)
  rw [labelOf_eq]
  constructor <;> linarith

/-! ## Claim theorems for the data generator -/

/-- C1: for every generated sample, the label is the baseline 128 with the
player-count, rare-rate, saturation, time-decay and noise adjustments
applied additively in the fixed source order, then clipped to [1,255] and
divided by 255.  `labelOf` is the source loop body; `labelSpecFormula` is
the formula exactly as the spec words it; they agree on all inputs. -/
theorem label_formula_matches_spec (players rare mined time noise : ℚ) :
    labelOf players rare mined time noise
      = labelSpecFormula players rare mined time noise := by
  rw [labelOf_eq]
  rfl

/-- C2: every label produced by generate_training_data lies in
[1/255, 1], and the label is clip(base + noise, 1, 255) / 255 — the clip
happens after the noise is added and before the division by 255. -/
theorem label_normalized_range (stream : ℕ → ℕ → ℚ) (n : ℕ) (g : RNG) :
    (((generate_training_data stream n g).2.data.all
        fun row => row.all fun v => decide (1 / 255 ≤ v) && decide (v ≤ 1)) = true)
    ∧ ∀ players rare mined time noise : ℚ,
        labelOf players rare mined time noise
          = npClip (preClipBase players rare mined time + noise) 1 255 / 255 := by
  refine ⟨?_, fun players rare mined time noise => labelOf_eq ..⟩
  rw [List.all_eq_true]
  intro row hrow
  rw [List.all_eq_true]
  intro v hv
  simp only [generate_training_data] at hrow
  obtain ⟨x, hx, rfl⟩ := List.mem_map.mp hrow
  simp only [List.mem_singleton] at hv
  subst hv
  obtain ⟨p, r, m, t, nz, rfl⟩ := targetLoop_mem stream _ _ _ _ _ _ hx
  obtain ⟨h1, h2⟩ := labelOf_bounds p r m t nz
  have h1' : (255 : ℚ)⁻¹ ≤ labelOf p r m t nz := by
    rw [← one_div]
    exact h1
  simp [h1', h2]

/-- C3: every component of every generated feature vector lies in [0,1],
given that the raw draws come from [1,1000], [0,10000], [0,1], [0,1024],
[0,1] (our uniform model under a stream of raw values in [0,1]) and the
normalization divisors 1000, 10000, 1, 1024, 1. -/
theorem generate_features_unit_interval (stream : ℕ → ℕ → ℚ) (n : ℕ) (g : RNG)
    (hs : ∀ s c, 0 ≤ stream s c ∧ stream s c ≤ 1) :
    ((generate_training_data stream n g).1.data.all
      fun row => row.all fun v => decide (0 ≤ v) && decide (v ≤ 1)) = true := by
  rw [List.all_eq_true]
  intro row hrow
  rw [List.all_eq_true]
  intro v hv
  simp only [Bool.and_eq_true, decide_eq_true_eq]
  simp only [generate_training_data] at hrow
  obtain ⟨x1, x2, x3, x4, x5, hr, h1, h2, h3, h4, h5⟩ :=
    columnStack5_mem _ _ _ _ _ row hrow
  subst hr
  obtain ⟨p, hp, rfl⟩ := List.mem_map.mp h1
  obtain ⟨s, hsc, rfl⟩ := List.mem_map.mp h2
  obtain ⟨m, hm, rfl⟩ := List.mem_map.mp h4
  obtain ⟨hp1, hp2⟩ := uniformArray_mem stream 1 1000 (by norm_num) hs _ _ _ hp
  obtain ⟨hs1, hs2⟩ := uniformArray_mem stream 0 10000 (by norm_num) hs _ _ _ hsc
  obtain ⟨hr1, hr2⟩ := uniformArray_mem stream 0 1 (by norm_num) hs _ _ _ h3
  obtain ⟨hm1, hm2⟩ := uniformArray_mem stream 0 (32 * 32) (by norm_num) hs _ _ _ hm
  obtain ⟨ht1, ht2⟩ := uniformArray_mem stream 0 1 (by norm_num) hs _ _ _ h5
  simp only [List.mem_cons, List.mem_singleton, List.not_mem_nil, or_false] at hv
  rcases hv with rfl | rfl | rfl | rfl | rfl
  · constructor <;> [linarith; linarith]
  · constructor <;> [linarith; linarith]
  · exact ⟨hr1, hr2⟩
  · constructor <;> [linarith; linarith]
  · exact ⟨ht1, ht2⟩

/-- Witness for C3 at the constant stream 1/2, three samples. -/
theorem generate_features_unit_interval_witness :
    ((generate_training_data (fun _ _ => 1 / 2) 3 ⟨0, 0⟩).1.data.all
      fun row => row.all fun v => decide (0 ≤ v) && decide (v ≤ 1)) = true :=
  generate_features_unit_interval (fun _ _ => 1 / 2) 3 ⟨0, 0⟩
    (fun _ _ => by norm_num)

/-- C4: generate_training_data reseeds the RNG to the fixed value 42
before drawing anything, so its output is independent of the incoming RNG
state: two calls with the same sample count agree exactly. -/
theorem generate_deterministic (stream : ℕ → ℕ → ℚ) (n : ℕ) (g g' : RNG) :
    generate_training_data stream n g = generate_training_data stream n g' := rfl

/-- C10: for every sample count n (including 0), the feature matrix has n
rows of 5 entries and the label matrix has n rows of 1 entry, both tagged
float32. -/
theorem generate_shapes_and_dtype (stream : ℕ → ℕ → ℚ) (n : ℕ) (g : RNG) :
    ((generate_training_data stream n g).1.data.length = n
      ∧ (((generate_training_data stream n g).1.data.all
            fun r => r.length == 5) = true)
      ∧ (generate_training_data stream n g).1.dtype = DType.float32)
    ∧ ((generate_training_data stream n g).2.data.length = n
      ∧ (((generate_training_data stream n g).2.data.all
            fun r => r.length == 1) = true)
      ∧ (generate_training_data stream n g).2.dtype = DType.float32) := by
  refine ⟨⟨?_, ?_, rfl⟩, ?_, ?_, rfl⟩
  · simp only [generate_training_data]
    rw [columnStack5_length] <;> simp [uniformArray_length]
  · rw [List.all_eq_true]
    intro row hrow
    simp only [generate_training_data] at hrow
    obtain ⟨x1, x2, x3, x4, x5, hr, -, -, -, -, -⟩ :=
      columnStack5_mem _ _ _ _ _ row hrow
    subst hr
    rfl
  · simp only [generate_training_data]
    rw [List.length_map, targetLoop_length] <;> simp [uniformArray_length]
  · rw [List.all_eq_true]
    intro row hrow
    simp only [generate_training_data] at hrow
    obtain ⟨x, -, rfl⟩ := List.mem_map.mp hrow
    rfl

/-! ## The neural network (DifficultyModel), over ℝ -/

noncomputable section

/-- nn.Sigmoid: the exact logistic function. -/
def sigmoid (z : ℝ) : ℝ := 1 / (1 + Real.exp (-z))

/-- nn.ReLU. -/
def relu (z : ℝ) : ℝ := max z 0

/-- The weights and biases of the three linear layers of DifficultyModel:
Linear(5→16), Linear(16→8), Linear(8→1). -/
structure NetParams where
  w1 : Fin 16 → Fin 5 → ℝ
  b1 : Fin 16 → ℝ
  w2 : Fin 8 → Fin 16 → ℝ
  b2 : Fin 8 → ℝ
  w3 : Fin 8 → ℝ
  b3 : ℝ

def linear1 (p : NetParams) (x : Fin 5 → ℝ) (j : Fin 16) : ℝ :=
  (∑ i, p.w1 j i * x i) + p.b1 j

def hidden1 (p : NetParams) (x : Fin 5 → ℝ) (j : Fin 16) : ℝ :=
  relu (linear1 p x j)

def linear2 (p : NetParams) (x : Fin 5 → ℝ) (j : Fin 8) : ℝ :=
  (∑ i, p.w2 j i * hidden1 p x i) + p.b2 j

def hidden2 (p : NetParams) (x : Fin 5 → ℝ) (j : Fin 8) : ℝ :=
  relu (linear2 p x j)

def linear3 (p : NetParams) (x : Fin 5 → ℝ) : ℝ :=
  (∑ i, p.w3 i * hidden2 p x i) + p.b3

/-- `self.network`: the Sequential stack ending in Sigmoid — the raw mode,
with output in (0,1). -/
def network (p : NetParams) (x : Fin 5 → ℝ) : ℝ := sigmoid (linear3 p x)

/-- `DifficultyModel.forward`: the scaled mode, raw * 254 + 1. -/
def forward (p : NetParams) (x : Fin 5 → ℝ) : ℝ := network p x * 254 + 1

lemma sigmoid_pos (z : ℝ) : 0 < sigmoid z := by
  unfold sigmoid
  have := Real.exp_pos (-z)
  positivity

lemma sigmoid_lt_one (z : ℝ) : sigmoid z < 1 := by
  unfold sigmoid
  rw [div_lt_one (by positivity)]
  linarith [Real.exp_pos (-z)]

/-! ## Training loss and loop (train_model) -/

/-- nn.MSELoss: the mean of the elementwise squared differences. -/
def mseLoss (pred target : List ℝ) : ℝ :=
  (((pred.zip target).map fun q => (q.1 - q.2) ^ 2).sum) / pred.length

/-- The loss computed each epoch in train_model: the MSE of the RAW
network outputs `model.network(X_tensor)` against the labels. -/
def epochLoss (X : List (Fin 5 → ℝ)) (y : List ℝ) (p : NetParams) : ℝ :=
  mseLoss (X.map (network p)) y

/-- Elementwise binary map over the parameter structure. -/
def NetParams.map2 (f : ℝ → ℝ → ℝ) (p q : NetParams) : NetParams where
  w1 := fun j i => f (p.w1 j i) (q.w1 j i)
  b1 := fun j => f (p.b1 j) (q.b1 j)
  w2 := fun j i => f (p.w2 j i) (q.w2 j i)
  b2 := fun j => f (p.b2 j) (q.b2 j)
  w3 := fun i => f (p.w3 i) (q.w3 i)
  b3 := f p.b3 q.b3

/-- Elementwise ternary map over the parameter structure. -/
def NetParams.map3 (f : ℝ → ℝ → ℝ → ℝ) (p q r : NetParams) : NetParams where
  w1 := fun j i => f (p.w1 j i) (q.w1 j i) (r.w1 j i)
  b1 := fun j => f (p.b1 j) (q.b1 j) (r.b1 j)
  w2 := fun j i => f (p.w2 j i) (q.w2 j i) (r.w2 j i)
  b2 := fun j => f (p.b2 j) (q.b2 j) (r.b2 j)
  w3 := fun i => f (p.w3 i) (q.w3 i) (r.w3 i)
  b3 := f p.b3 q.b3 r.b3

def NetParams.zeros : NetParams :=
  ⟨fun _ _ => 0, fun _ => 0, fun _ _ => 0, fun _ => 0, fun _ => 0, 0⟩

/-- torch.optim.Adam state: the fixed hyperparameters plus per-parameter
first and second moment estimates and the step count. -/
structure AdamState where
  lr : ℝ
  beta1 : ℝ
  beta2 : ℝ
  eps : ℝ
  m : NetParams
  v : NetParams
  t : ℕ

/-- One `optimizer.step()` of Adam with gradient grd at parameters p:
bias-corrected first and second moment estimates, then the parameter
update with the fixed learning rate. -/
def adamStep (opt : AdamState) (grd p : NetParams) : AdamState × NetParams :=
  let t' := opt.t + 1
  let m' := NetParams.map2 (fun mi gi => opt.beta1 * mi + (1 - opt.beta1) * gi) opt.m grd
  let v' := NetParams.map2 (fun vi gi => opt.beta2 * vi + (1 - opt.beta2) * gi ^ 2) opt.v grd
  let p' := NetParams.map3
    (fun mi vi pi =>
      pi - opt.lr * (mi / (1 - opt.beta1 ^ t'))
        / (Real.sqrt (vi / (1 - opt.beta2 ^ t')) + opt.eps))
    m' v' p
  ({ opt with m := m', v := v', t := t' }, p')

/-- The state threaded through the training loop: the optimizer state, the
model parameters, the number of epochs executed so far, and the list of
(epoch, loss) progress reports printed so far. -/
structure TrainState where
  opt : AdamState
  params : NetParams
  epochsRun : ℕ
  reports : List (ℕ × ℝ)

/-- The body of one iteration of `for epoch in range(500)`: compute the
full-batch loss on the raw outputs, backpropagate (the gradient oracle grd
abstracts autograd), take one Adam step, and report the loss when
(epoch + 1) % 100 == 0. -/
def epochStep (grd : NetParams → NetParams) (X : List (Fin 5 → ℝ)) (y : List ℝ)
    (e : ℕ) (s : TrainState) : TrainState :=
  let loss := epochLoss X y s.params
  let step := adamStep s.opt (grd s.params) s.params
  { opt := step.1, params := step.2, epochsRun := s.epochsRun + 1,
    reports := if (e + 1) % 100 == 0 then s.reports ++ [(e + 1, loss)] else s.reports }

/-- The optimizer as constructed in the source: lr=0.001, with the torch
Adam defaults beta=(0.9, 0.999), eps=1e-8, zero moments, step count 0. -/
def initOpt : AdamState :=
  { lr := 0.001, beta1 := 0.9, beta2 := 0.999, eps := 1e-8,
    m := NetParams.zeros, v := NetParams.zeros, t := 0 }

/-- The training loop of train_model: a fold over epochs 0..499, the full
dataset every epoch (no mini-batching, no shuffling). -/
def trainLoop (grd : NetParams → NetParams) (X : List (Fin 5 → ℝ)) (y : List ℝ)
    (p0 : NetParams) : TrainState :=
  (List.range 500).foldl (fun s e => epochStep grd X y e s)
    { opt := initOpt, params := p0, epochsRun := 0, reports := [] }

lemma foldl_epochsRun (grd : NetParams → NetParams) (X : List (Fin 5 → ℝ))
    (y : List ℝ) :
    ∀ (l : List ℕ) (s : TrainState),
      (l.foldl (fun s e => epochStep grd X y e s) s).epochsRun
        = s.epochsRun + l.length := by
  intro l
  induction l with
  | nil => intro s; simp
  | cons e l ih =>
    intro s
    rw [List.foldl_cons, ih]
    simp [epochStep]
    omega

lemma foldl_reports_fst (grd : NetParams → NetParams) (X : List (Fin 5 → ℝ))
    (y : List ℝ) :
    ∀ (l : List ℕ) (s : TrainState),
      ((l.foldl (fun s e => epochStep grd X y e s) s).reports).map Prod.fst
        = s.reports.map Prod.fst
            ++ (l.filter fun e => (e + 1) % 100 == 0).map (· + 1) := by
  intro l
  induction l with
  | nil => intro s; simp
  | cons e l ih =>
    intro s
    rw [List.foldl_cons, ih]
    by_cases h : ((e + 1) % 100 == 0) = true
    · simp [epochStep, h, List.filter_cons]
    · simp [epochStep, h, List.filter_cons]

lemma foldl_lr (grd : NetParams → NetParams) (X : List (Fin 5 → ℝ)) (y : List ℝ) :
    ∀ (l : List ℕ) (s : TrainState),
      (l.foldl (fun s e => epochStep grd X y e s) s).opt.lr = s.opt.lr := by
  intro l
  induction l with
  | nil => intro s; rfl
  | cons e l ih =>
    intro s
    rw [List.foldl_cons, ih]
    rfl

/-! ## Export configuration (export_to_onnx, generate_sample_input) -/

/-- The shape of the tracing dummy input `torch.randn(1, 5)`. -/
def exportDummyShape : ℕ × ℕ := (1, 5)

/-- The keyword arguments the source passes to torch.onnx.export. -/
structure OnnxExportArgs where
  inputNames : List String
  outputNames : List String
  dynamicAxes : List (String × List (ℕ × String))
  opsetVersion : ℕ

def exportArgs : OnnxExportArgs where
  inputNames := ["game_state"]
  outputNames := ["difficulty"]
  dynamicAxes := [("game_state", [(0, "batch_size")]), ("difficulty", [(0, "batch_size")])]
  opsetVersion := 11

/-- The function traced by `torch.onnx.export(model, ...)`: the module
call, i.e. DifficultyModel.forward — the scaled mode. -/
def exportedGraph (p : NetParams) : (Fin 5 → ℝ) → ℝ := forward p

/-- The object generate_sample_input serializes to input.json: one key
"input_data" holding one batch of one 5-feature sample. -/
def sampleInputObject : List (String × List (List ℚ)) :=
  [("input_data", [[0.15, 0.35, 0.45, 0.30, 0.25]])]

/-- Model of `os.path.join(output_dir, "input.json")`. -/
def inputJsonPath (output_dir : String) : String := output_dir ++ "/input.json"

end

/-! ## Claim theorems for the model, trainer and exporter -/

/-- C5: for every parameter assignment and every 5-dimensional input —
including the zero vector and the all-ones vector — the scaled-mode output
equals the raw sigmoid output of the 5→16→8→1 network times 254 plus 1,
and lies in [1, 255] (a real number, hence finite). -/
theorem forward_scaled_and_bounded (p : NetParams) (x : Fin 5 → ℝ) :
    forward p x = network p x * 254 + 1
    ∧ (1 ≤ forward p x ∧ forward p x ≤ 255)
    ∧ (1 ≤ forward p (fun _ => 0) ∧ forward p (fun _ => 0) ≤ 255)
    ∧ (1 ≤ forward p (fun _ => 1) ∧ forward p (fun _ => 1) ≤ 255) := by
  have key : ∀ z : Fin 5 → ℝ, 1 ≤ forward p z ∧ forward p z ≤ 255 := by
    intro z
    have h0 := sigmoid_pos (linear3 p z)
    have h1 := sigmoid_lt_one (linear3 p z)
    unfold forward network
    constructor <;> nlinarith
  exact ⟨rfl, key x, key (fun _ => 0), key (fun _ => 1)⟩

/-- C6: the loss computed in each training epoch is the mean-squared error
of the raw pre-rescale sigmoid outputs (model.network) against the
normalized labels; the raw output is strictly below the post-scaled
[1,255] output on every input, so the two can never coincide. -/
theorem training_loss_on_raw_output (p : NetParams) (X : List (Fin 5 → ℝ))
    (y : List ℝ) :
    epochLoss X y p = mseLoss (X.map (network p)) y
    ∧ ∀ x, network p x < forward p x := by
  refine ⟨rfl, fun x => ?_⟩
  have h0 := sigmoid_pos (linear3 p x)
  unfold forward network
  linarith

set_option maxRecDepth 4000 in
/-- C7: the training loop executes exactly 500 epochs for every gradient
oracle, dataset and starting point (no convergence check or early
stopping), reports the loss exactly at epochs 100, 200, 300, 400, 500,
and finishes with the learning rate still at its fixed value 0.001. -/
theorem train_loop_runs_500_epochs (grd : NetParams → NetParams)
    (X : List (Fin 5 → ℝ)) (y : List ℝ) (p0 : NetParams) :
    (trainLoop grd X y p0).epochsRun = 500
    ∧ (trainLoop grd X y p0).reports.map Prod.fst = [100, 200, 300, 400, 500]
    ∧ (trainLoop grd X y p0).opt.lr = 0.001 := by
  refine ⟨?_, ?_, ?_⟩
  · rw [trainLoop, foldl_epochsRun]
    simp
  · rw [trainLoop, foldl_reports_fst]
    simp only [List.map_nil, List.nil_append]
    decide
  · rw [trainLoop, foldl_lr]
    rfl

/-- C8: the export call names its single input "game_state" and its single
output "difficulty", declares a dynamic leading batch axis on both, uses
opset version 11, and the traced function is the scaled forward pass
(raw * 254 + 1), strictly above the raw sigmoid on every input. -/
theorem onnx_export_contract (p : NetParams) (x : Fin 5 → ℝ) :
    exportArgs.inputNames = ["game_state"]
    ∧ exportArgs.outputNames = ["difficulty"]
    ∧ exportArgs.dynamicAxes
        = [("game_state", [(0, "batch_size")]), ("difficulty", [(0, "batch_size")])]
    ∧ exportArgs.opsetVersion = 11
    ∧ exportedGraph p x = network p x * 254 + 1
    ∧ network p x < exportedGraph p x := by
  refine ⟨rfl, rfl, rfl, rfl, rfl, ?_⟩
  have h0 := sigmoid_pos (linear3 p x)
  unfold exportedGraph forward network
  linarith

/-- C9: generate_sample_input writes to output_dir/input.json exactly the
object with the one key "input_data" holding one batch of one sample with
the five values 0.15, 0.35, 0.45, 0.30, 0.25 — and that inner list has
length 5, the trailing dimension of the tracing dummy input of the
exported graph. -/
theorem sample_input_contents :
    sampleInputObject = [("input_data", [[3 / 20, 7 / 20, 9 / 20, 3 / 10, 1 / 4]])]
    ∧ (sampleInputObject.map fun kv => kv.2.map List.length) = [[exportDummyShape.2]]
    ∧ inputJsonPath "./build" = "./build/input.json" := by
  refine ⟨?_, rfl, rfl⟩
  norm_num [sampleInputObject]

end GridZero
